import Mathlib

set_option maxRecDepth 8192

/-!
Verification of the CloudVault chunked, encrypted storage gateway.

The development shallowly embeds the storage gateway (`TelegramStorage`,
src/unnamed/part_012) and the client-side upload queue
(`UploadManagerProvider`, src/unnamed/part_007).  Byte buffers are
`List Nat` with each byte reduced modulo 256; the external crypto library
(Node's `crypto`) is not part of the repository, so its primitives
(SHA-256, `createCipher`/`createDecipher` with AES-256-CBC) are modelled
as executable deterministic functions that keep the properties the code
relies on, as described by the spec (§4.1): hashing is a deterministic
function of the bytes, key derivation is deterministic, encryption pads
to a block size and is inverted by decryption under the same key, and
`createCipher` derives both key and IV deterministically from the given
password string (no per-call randomness).  The backend (Telegram) is
modelled as a partial map from its opaque content handles to the stored
bytes; content handles are modelled as `Nat`.
-/

namespace CloudVault

/-- Upload status of a transfer record (src part_007, `UploadStatus`). -/
inductive UploadStatus
  | pending
  | uploading
  | paused
  | completed
  | error
  | cancelled
  deriving DecidableEq, Repr

/-- Chunk descriptor (src part_012, `TelegramChunk`).  The backend content
handle `fileId` (Telegram's `file_id` string) is modelled as a `Nat`. -/
structure TelegramChunk where
  chunkId : String
  chunkIndex : Nat
  messageId : Nat
  encryptedHash : String
  fileId : Option Nat
  deriving DecidableEq, Repr

/-- `CHUNK_SIZE = 5 * 1024 * 1024` (src part_012 line 5). -/
def CHUNK_SIZE : Nat := 5 * 1024 * 1024

/-- `MAX_CONCURRENT_UPLOADS = 3` (src part_007 line 18). -/
def MAX_CONCURRENT_UPLOADS : Nat := 3

/-- `RETRY_ATTEMPTS = 3` (src part_007 line 19). -/
def RETRY_ATTEMPTS : Nat := 3

/-! ### Crypto unit (model of the external `crypto` library, spec §4.1) -/

/-- Model of the external SHA-256 hex digest over bytes: a deterministic
function of the byte string, injectively encoded (each byte is first
reduced modulo 256, as bytes are). -/
def hashHex (bytes : List Nat) : String :=
  toString (bytes.foldl (fun a b => a * 257 + b % 256 + 1) 0)

/-- Model of the external SHA-256 hex digest over a string (used for key
derivation): a deterministic function of the characters. -/
def hashHexStr (s : String) : String :=
  toString (s.data.foldl (fun a c => a * 1114112 + c.toNat + 1) 0)

/-- The process-wide server secret `process.env.NEXTAUTH_SECRET`
(read-only configuration, spec §4.1: not rotated within a session). -/
def NEXTAUTH_SECRET : String := "NEXTAUTH_SECRET"

/-- `generateEncryptionKey` (src part_012 lines 117-121): SHA-256 hex of
`fileId ++ "_" ++ chunkIndex ++ "_" ++ secret`. -/
def generateEncryptionKey (fileId : String) (chunkIndex : Nat) : String :=
  hashHexStr (fileId ++ "_" ++ toString chunkIndex ++ "_" ++ NEXTAUTH_SECRET)

/-- Block padding applied by the cipher (AES-CBC pads to the 16-byte block
size; spec §4.1: output length differs from input due to block padding).
PKCS#7: append `padLen` copies of `padLen` where `padLen = 16 - len % 16`. -/
def padBlock (p : List Nat) : List Nat :=
  let padLen := 16 - p.length % 16
  p ++ List.replicate padLen padLen

/-- Inverse of `padBlock`, failing on invalid padding (spec §4.1: decrypt
fails with `DecryptionError` on a padding check failure). -/
def unpadBlock (p : List Nat) : Option (List Nat) :=
  match p.getLast? with
  | none => none
  | some n =>
    if n = 0 ∨ 16 < n ∨ p.length < n then none
    else if p.drop (p.length - n) = List.replicate n n then some (p.take (p.length - n))
    else none

/-- Deterministic keystream byte derived from the key string.
`crypto.createCipher` derives both the AES key and the IV deterministically
from the password (EVP_BytesToKey with no salt), so the cipher is a pure
function of (plaintext, key) with no per-call randomness; the model keys a
bytewise stream on the password string. -/
def keyByte (key : String) : Nat :=
  key.data.foldl (fun a c => (a + c.toNat) % 256) 7

/-- `encryptChunk` (src part_012 lines 123-126): a pure function of the
chunk bytes and the key string (see `keyByte`); pads, then combines each
byte with the key-derived stream modulo 256. -/
def encryptChunk (chunk : List Nat) (key : String) : List Nat :=
  (padBlock chunk).map (fun b => (b + keyByte key) % 256)

/-- `decryptChunk` (src part_012 lines 128-131): inverse of `encryptChunk`;
`none` models the `decipher.final()` throw on corrupted ciphertext
(padding check failure). -/
def decryptChunk (encryptedChunk : List Nat) (key : String) : Option (List Nat) :=
  unpadBlock (encryptedChunk.map (fun b => (b + (256 - keyByte key)) % 256))

/-! ### Chunk uploader (src part_012, `uploadChunk` / `uploadFile`) -/

/-- Result shape of `uploadFile` (src part_012 lines 212-216). -/
structure UploadResult where
  telegramStorageId : String
  chunks : List TelegramChunk
  totalChunks : Nat
  deriving DecidableEq, Repr

/-- `uploadChunk` (src part_012 lines 195-210): derive the per-chunk key,
encrypt, hash the *encrypted* bytes, transmit.  The backend acknowledgment
(`sendDocument`) is modelled as assigning message id and content handle
`chunkIndex`; the second component is the transmitted (handle, encrypted
bytes) pair that the backend stores. -/
def uploadChunkModel (fileId : String) (chunkIndex : Nat) (chunk : List Nat) :
    TelegramChunk × (Nat × List Nat) :=
  let encryptionKey := generateEncryptionKey fileId chunkIndex
  let encryptedChunk := encryptChunk chunk encryptionKey
  let encryptedHash := hashHex encryptedChunk
  (⟨fileId ++ "_" ++ toString chunkIndex, chunkIndex, chunkIndex, encryptedHash,
    some chunkIndex⟩,
   (chunkIndex, encryptedChunk))

/-- The chunk split performed by `uploadFile` (src part_012 lines 221-245):
a buffer of length ≤ CHUNK_SIZE is a single chunk; otherwise
`totalChunks = ceil(len / CHUNK_SIZE)` chunks, chunk `i` being
`slice(i*CHUNK_SIZE, min((i+1)*CHUNK_SIZE, len))`. -/
def chunkSlices (fileBuffer : List Nat) : List (List Nat) :=
  if fileBuffer.length ≤ CHUNK_SIZE then
    [fileBuffer]
  else
    let totalChunks := (fileBuffer.length + CHUNK_SIZE - 1) / CHUNK_SIZE
    (List.range totalChunks).map
      (fun i => (fileBuffer.drop (i * CHUNK_SIZE)).take CHUNK_SIZE)

/-- `uploadFile` (src part_012 lines 212-252): split into chunk slices,
upload each sequentially via `uploadChunk` with its index, return the
descriptor list with `totalChunks := chunks.length`; the second component
is the list of (handle, encrypted bytes) the backend received.  The
randomly minted file id is a parameter (`crypto.randomUUID`). -/
def uploadFileModel (fileId : String) (fileBuffer : List Nat) :
    UploadResult × List (Nat × List Nat) :=
  let pieces := (chunkSlices fileBuffer).enum.map
    (fun p => uploadChunkModel fileId p.1 p.2)
  let chunks := pieces.map Prod.fst
  (⟨fileId, chunks, chunks.length⟩, pieces.map Prod.snd)

/-! ### Chunk downloader / reassembler (src part_012, `downloadFileByChunks`) -/

/-- Error taxonomy of the download path; every constructor records the
chunk index, as the code wraps every failure in
`Failed to download chunk ${chunk.chunkIndex}: ...`. -/
inductive ChunkError
  | missingFileId (chunkIndex : Nat)
  | fetchFailed (chunkIndex : Nat)
  | decryptFailed (chunkIndex : Nat)
  | integrityFailed (chunkIndex : Nat)
  deriving DecidableEq, Repr

/-- The index recorded in a `ChunkError`. -/
def ChunkError.index : ChunkError → Nat
  | .missingFileId i => i
  | .fetchFailed i => i
  | .decryptFailed i => i
  | .integrityFailed i => i

instance {ε α : Type} [DecidableEq ε] [DecidableEq α] : DecidableEq (Except ε α) :=
  fun a b =>
    match a, b with
    | .ok x, .ok y =>
      match decEq x y with
      | isTrue h => isTrue (h ▸ rfl)
      | isFalse h => isFalse (fun hh => h (Except.ok.inj hh))
    | .error x, .error y =>
      match decEq x y with
      | isTrue h => isTrue (h ▸ rfl)
      | isFalse h => isFalse (fun hh => h (Except.error.inj hh))
    | .ok _, .error _ => isFalse (fun hh => Except.noConfusion hh)
    | .error _, .ok _ => isFalse (fun hh => Except.noConfusion hh)

/-- Body of the per-chunk loop of `downloadFileByChunks` (src part_012
lines 257-281), in the source's order of operations: resolve the content
handle, fetch the encrypted bytes (`getFile` + `downloadFile`, modelled by
the `backend` partial map), *decrypt*, and only then recompute the hash of
the encrypted bytes and compare with the stored `encryptedHash`; the
decrypted chunk is kept only on a hash match. -/
def processChunk (backend : Nat → Option (List Nat)) (fileId : String)
    (chunk : TelegramChunk) : Except ChunkError (List Nat) :=
  match chunk.fileId with
  | none => .error (.missingFileId chunk.chunkIndex)
  | some ref =>
    match backend ref with
    | none => .error (.fetchFailed chunk.chunkIndex)
    | some encryptedChunk =>
      let encryptionKey := generateEncryptionKey fileId chunk.chunkIndex
      match decryptChunk encryptedChunk encryptionKey with
      | none => .error (.decryptFailed chunk.chunkIndex)
      | some decryptedChunk =>
        let actualHash := hashHex encryptedChunk
        if actualHash ≠ chunk.encryptedHash then
          .error (.integrityFailed chunk.chunkIndex)
        else
          .ok decryptedChunk

/-- The comparator of the defensive sort of `downloadFileByChunks`:
`(a, b) => a.chunkIndex - b.chunkIndex`, i.e. ascending `chunkIndex`. -/
def chunkLE (a b : TelegramChunk) : Prop := a.chunkIndex ≤ b.chunkIndex

/-- Strict version of `chunkLE`, used to state that a descriptor list with
pairwise-distinct indices has a unique sorted arrangement. -/
def chunkLT (a b : TelegramChunk) : Prop := a.chunkIndex < b.chunkIndex

instance : DecidableRel chunkLE := fun a b => Nat.decLe a.chunkIndex b.chunkIndex

instance : IsTotal TelegramChunk chunkLE := ⟨fun a b => Nat.le_total a.chunkIndex b.chunkIndex⟩

instance : IsTrans TelegramChunk chunkLE := ⟨fun _ _ _ h1 h2 => Nat.le_trans h1 h2⟩

instance : IsAntisymm TelegramChunk chunkLT :=
  ⟨fun _ _ h1 h2 => absurd h2 (Nat.lt_asymm h1)⟩

/-- The defensive sort of `downloadFileByChunks`:
`chunks.sort((a, b) => a.chunkIndex - b.chunkIndex)` — a comparator-based
sort in ascending `chunkIndex` order, modelled by insertion sort. -/
def sortChunks (chunks : List TelegramChunk) : List TelegramChunk :=
  chunks.insertionSort chunkLE

/-- Sequential loop of `downloadFileByChunks`: process chunks in order,
aborting on the first failure, concatenating the decrypted buffers. -/
def downloadGo (backend : Nat → Option (List Nat)) (fileId : String) :
    List TelegramChunk → Except ChunkError (List Nat)
  | [] => .ok []
  | c :: rest =>
    match processChunk backend fileId c with
    | .error e => .error e
    | .ok p =>
      match downloadGo backend fileId rest with
      | .error e => .error e
      | .ok ps => .ok (p ++ ps)

/-- `downloadFileByChunks` (src part_012 lines 254-285): sort the
descriptors by `chunkIndex`, download + decrypt + verify each in that
order, concatenate. -/
def downloadFileByChunks (backend : Nat → Option (List Nat)) (fileId : String)
    (chunks : List TelegramChunk) : Except ChunkError (List Nat) :=
  downloadGo backend fileId (sortChunks chunks)

/-! ### Resilient transport (src part_012, `fetchWithRetry` and `sleep`) -/

/-- Environment outcome of one fetch attempt inside `fetchWithRetry`. -/
inductive FetchStep
  | ok (body : Nat)
  | status (code : Nat)
  | netError
  | abortFetch
  deriving DecidableEq, Repr

/-- Outcome of `fetchWithRetry` as seen by the caller. -/
inductive FetchOutcome
  | success (body : Nat)
  | response (code : Nat)
  | netThrown
  | abortThrown
  | exhausted
  deriving DecidableEq, Repr

/-- `retryStatuses = [429, 500, 502, 503, 504]` (src part_012 line 66). -/
def retryStatuses : List Nat := [429, 500, 502, 503, 504]

/-- Loop of `fetchWithRetry` (src part_012 lines 63-115).  The environment
`env` gives the outcome of each fetch attempt: `.ok` an OK response
(returned), `.status` a non-OK response (returned unless the status is
retryable and budget remains), `.netError` a thrown network error or
internal timeout (retried while budget remains, rethrown on the last
attempt), `.abortFetch` a throw with the external signal aborted
(rethrown immediately).  `sleepAbort n` says whether the external signal
aborts during the backoff sleep that follows attempt `n`; the abortable
sleep then rejects with `AbortError`, the catch sees the external signal
aborted and rethrows.  `fuel` is the number of remaining loop iterations
(the for loop runs `attempt = 0 .. retries`); the second component of the
result is the total number of fetch attempts performed. -/
def fetchGo (env : Nat → FetchStep) (sleepAbort : Nat → Bool) (retries : Nat) :
    Nat → Nat → FetchOutcome × Nat
  | attempt, 0 => (.exhausted, attempt)
  | attempt, fuel + 1 =>
    match env attempt with
    | .ok body => (.success body, attempt + 1)
    | .status code =>
      if code ∉ retryStatuses ∨ attempt = retries then (.response code, attempt + 1)
      else if sleepAbort attempt then (.abortThrown, attempt + 1)
      else fetchGo env sleepAbort retries (attempt + 1) fuel
    | .netError =>
      if attempt = retries then (.netThrown, attempt + 1)
      else if sleepAbort attempt then (.abortThrown, attempt + 1)
      else fetchGo env sleepAbort retries (attempt + 1) fuel
    | .abortFetch => (.abortThrown, attempt + 1)

/-- `fetchWithRetry` (src part_012 lines 63-115) with its default budget
of `retries = 4`. -/
def fetchWithRetry (env : Nat → FetchStep) (sleepAbort : Nat → Bool)
    (retries : Nat := 4) : FetchOutcome × Nat :=
  fetchGo env sleepAbort retries 0 (retries + 1)

/-- Outcome of the abortable `sleep` (src part_012 lines 46-60), in
discrete time measured from the start of the sleep. -/
inductive SleepOutcome
  | resolved (atTime : Nat)
  | rejectedAbort (atTime : Nat)
  deriving DecidableEq, Repr

/-- `sleep(ms, signal)` (src part_012 lines 46-60): a timer resolves at
`ms`; if the signal is already aborted, or aborts at time `t` before the
timer fires, the timer is cleared and the promise rejects with an
`AbortError` at that moment (`abortAt = some t` means the external signal
aborts `t` ticks after the sleep starts; already aborted is `t = 0`). -/
def sleepModel (ms : Nat) (abortAt : Option Nat) : SleepOutcome :=
  match abortAt with
  | none => .resolved ms
  | some t => if t < ms then .rejectedAbort t else .resolved ms

/-! ### Transfer session manager (src part_007, `UploadManagerProvider`) -/

/-- Client-side upload record (src part_007, `UploadFile`).  The attached
`AbortController` is modelled by its observable `signal.aborted` bit:
a freshly constructed controller is unaborted (`aborted := false`). -/
structure UploadFile where
  id : String
  size : Nat
  status : UploadStatus
  error : Option String
  progress : Nat
  chunks : List TelegramChunk
  totalChunks : Nat
  currentChunk : Nat
  retryCount : Nat
  aborted : Bool
  deriving DecidableEq, Repr

/-- `canStartUpload` (src part_007 lines 93-95). -/
def canStartUpload (active : List String) : Bool :=
  active.length < MAX_CONCURRENT_UPLOADS

/-- `addToActive` (src part_007 lines 97-99): `Set.add`. -/
def addToActive (active : List String) (id : String) : List String :=
  if id ∈ active then active else id :: active

/-- `removeFromActive` (src part_007 lines 101-103): `Set.delete`. -/
def removeFromActive (active : List String) (id : String) : List String :=
  active.filter (fun x => x != id)

/-- `updateUpload(id, { status: "uploading", error: undefined })`
(src part_007 line 442). -/
def startUploading (uploads : List UploadFile) (id : String) : List UploadFile :=
  uploads.map fun u =>
    if u.id = id then { u with status := .uploading, error := none } else u

/-- `updateUpload(id, { status: "completed", progress: 100, ... })`
(src part_007 lines 524-529). -/
def markCompleted (uploads : List UploadFile) (id : String) : List UploadFile :=
  uploads.map fun u =>
    if u.id = id then { u with status := .completed, progress := 100 } else u

/-- `updateUpload(id, { status: "error", error: msg, retryCount })` in the
catch branch of processUpload (src part_007 lines 620-626); the retry
counter is bumped by one. -/
def markErrorFn (uploads : List UploadFile) (id : String) (msg : String) :
    List UploadFile :=
  uploads.map fun u =>
    if u.id = id then
      { u with status := .error, error := some msg, retryCount := u.retryCount + 1 }
    else u

/-- `updateUpload(id, { status: "paused" })` in the abort branch of the
catch of processUpload (src part_007 line 568). -/
def markPausedFn (uploads : List UploadFile) (id : String) : List UploadFile :=
  uploads.map fun u => if u.id = id then { u with status := .paused } else u

/-- `updateUpload(id, { currentChunk, progress, chunks, ... })` after every
uploaded chunk (src part_007 lines 514-520). -/
def updateChunkProgress (uploads : List UploadFile) (id : String) (cc pr : Nat)
    (ch : List TelegramChunk) : List UploadFile :=
  uploads.map fun u =>
    if u.id = id then { u with currentChunk := cc, progress := pr, chunks := ch }
    else u

/-- `pauseUpload` (src part_007 lines 740-758): an `uploading` record is
aborted (its old controller fires), marked `paused`, and given a fresh
controller. -/
def pauseUpload (uploads : List UploadFile) (id : String) : List UploadFile :=
  uploads.map fun u =>
    if u.id = id ∧ u.status = .uploading then
      { u with status := .paused, aborted := false }
    else u

/-- `resumeUpload` (src part_007 lines 760-774): a `paused` record becomes
`pending`, its error is cleared and its controller replaced by a fresh,
unaborted one; every other field is carried over by the spread. -/
def resumeUpload (uploads : List UploadFile) (id : String) : List UploadFile :=
  uploads.map fun u =>
    if u.id = id ∧ u.status = .paused then
      { u with status := .pending, error := none, aborted := false }
    else u

/-- `cancelUpload` (src part_007 lines 776-791): the controller is aborted
and the record marked `cancelled` (the spread keeps the now-aborted
controller). -/
def cancelUpload (uploads : List UploadFile) (id : String) : List UploadFile :=
  uploads.map fun u =>
    if u.id = id then { u with status := .cancelled, aborted := true } else u

/-- `retryUpload` (src part_007 lines 793-822): an `error` record under the
record-level retry ceiling becomes `pending` again with reset progress and
a fresh controller; the retry counter is kept. -/
def retryUpload (uploads : List UploadFile) (id : String) : List UploadFile :=
  uploads.map fun u =>
    if u.id = id ∧ u.status = .error ∧ u.retryCount < RETRY_ATTEMPTS * 2 then
      { u with status := .pending, error := none, progress := 0,
               currentChunk := 0, aborted := false }
    else u

/-- `removeUpload` (src part_007 lines 726-738). -/
def removeUpload (uploads : List UploadFile) (id : String) : List UploadFile :=
  uploads.filter (fun u => u.id != id)

/-- Index sequence of the per-chunk loop of processUpload (src part_007
line 492): `for (let i = upload.currentChunk; i < totalChunks; i++)`. -/
def loopFrom (i total : Nat) : List Nat :=
  if i < total then i :: loopFrom (i + 1) total else []
termination_by total - i

/-- Input file handed to `addUploads`. -/
structure FileIn where
  name : String
  size : Nat
  deriving DecidableEq, Repr

/-- The fresh `pending` record built by `addUploads` for one file
(src part_007 lines 691-711).  `generateUploadId` is time/randomness
based and modelled by the file name; `fileId` from the init session is
not tracked here. -/
def mkUpload (f : FileIn) : UploadFile :=
  { id := f.name, size := f.size, status := .pending, error := none,
    progress := 0, chunks := [],
    totalChunks := (f.size + CHUNK_SIZE - 1) / CHUNK_SIZE,
    currentChunk := 0, retryCount := 0, aborted := false }

/-- `addUploads` (src part_007 lines 668-724): a file with `size === 0` is
skipped with a `console.warn` and `continue` — no record is created, no
error is thrown, nothing is transmitted for it; every other file yields a
fresh `pending` record. -/
def addUploads (files : List FileIn) : List UploadFile :=
  files.filterMap (fun f => if f.size = 0 then none else some (mkUpload f))

/-- Queue-manager state: the upload records plus the module-level
`activeUploadsRef` set of ids currently being processed. -/
structure QState where
  uploads : List UploadFile
  active : List String
  deriving Repr

/-- Atomic transitions of the upload queue (src part_007).  Each
constructor is one synchronous block of the source between suspension
points (the JS event loop interleaves only at `await`s): notably, the
`canStartUpload` check, `addToActive` and the `uploading` status update
(lines 415-442) run with no intervening `await` and form the single
`start` step, and `removeFromActive` in the `finally` (line 638) runs
after the catch/try has already moved the record out of `uploading`. -/
inductive QStep : QState → QState → Prop
  | add (s : QState) (u : UploadFile) (hid : u.id ∉ s.uploads.map UploadFile.id)
      (hst : u.status = .pending) :
      QStep s ⟨s.uploads ++ [u], s.active⟩
  | start (s : QState) (id : String)
      (hmem : ∃ u ∈ s.uploads, u.id = id ∧ u.status = .pending)
      (hcap : canStartUpload s.active = true) :
      QStep s ⟨startUploading s.uploads id, addToActive s.active id⟩
  | complete (s : QState) (id : String) :
      QStep s ⟨markCompleted s.uploads id, s.active⟩
  | fail (s : QState) (id : String) (msg : String) :
      QStep s ⟨markErrorFn s.uploads id msg, s.active⟩
  | abortPaused (s : QState) (id : String) :
      QStep s ⟨markPausedFn s.uploads id, s.active⟩
  | finallyRemove (s : QState) (id : String)
      (hnot : ∀ u ∈ s.uploads, u.id = id → u.status ≠ .uploading) :
      QStep s ⟨s.uploads, removeFromActive s.active id⟩
  | progress (s : QState) (id : String) (cc pr : Nat) (ch : List TelegramChunk) :
      QStep s ⟨updateChunkProgress s.uploads id cc pr ch, s.active⟩
  | pause (s : QState) (id : String) :
      QStep s ⟨pauseUpload s.uploads id, removeFromActive s.active id⟩
  | cancel (s : QState) (id : String) :
      QStep s ⟨cancelUpload s.uploads id, removeFromActive s.active id⟩
  | resume (s : QState) (id : String) :
      QStep s ⟨resumeUpload s.uploads id, s.active⟩
  | retryErr (s : QState) (id : String) :
      QStep s ⟨retryUpload s.uploads id, s.active⟩
  | remove (s : QState) (id : String) :
      QStep s ⟨removeUpload s.uploads id, removeFromActive s.active id⟩

/-- States reachable from the initial empty queue. -/
inductive ReachableQ : QState → Prop
  | init : ReachableQ ⟨[], []⟩
  | step {s t : QState} : ReachableQ s → QStep s t → ReachableQ t

/-- Number of records currently in the `uploading` state. -/
def countUploading (uploads : List UploadFile) : Nat :=
  (uploads.filter (fun u => u.status == .uploading)).length

/-- Invariant of the queue state: every `uploading` record's id is in the
active set, the active set has no duplicates and respects the cap, and
record ids are unique. -/
def QInv (s : QState) : Prop :=
  (∀ u ∈ s.uploads, u.status = .uploading → u.id ∈ s.active) ∧
  s.active.Nodup ∧
  s.active.length ≤ MAX_CONCURRENT_UPLOADS ∧
  (s.uploads.map UploadFile.id).Nodup

/-! ## Properties of the crypto unit -/

lemma CHUNK_SIZE_pos : 0 < CHUNK_SIZE := by norm_num [CHUNK_SIZE]

lemma keyByte_lt (key : String) : keyByte key < 256 := by
  have H : ∀ (l : List Char) (a : Nat), a < 256 →
      l.foldl (fun a c => (a + c.toNat) % 256) a < 256 := by
    intro l
    induction l with
    | nil => intro a ha; exact ha
    | cons c t ih => intro a _; exact ih _ (Nat.mod_lt _ (by norm_num))
  simpa [keyByte] using H key.data 7 (by norm_num)

lemma unpadBlock_append_replicate (p : List Nat) (n : Nat) (h1 : 1 ≤ n)
    (h16 : n ≤ 16) : unpadBlock (p ++ List.replicate n n) = some p := by
  have hrep : List.replicate n n ≠ [] := by
    intro h
    have := congrArg List.length h
    simp at this
    omega
  have hl : (p ++ List.replicate n n).length = p.length + n := by simp
  rw [unpadBlock, List.getLast?_append_of_ne_nil _ hrep, List.getLast?_replicate,
    if_neg (show ¬n = 0 by omega)]
  have hcond : ¬(n = 0 ∨ 16 < n ∨ (p ++ List.replicate n n).length < n) := by
    rw [hl]; omega
  show (if n = 0 ∨ 16 < n ∨ (p ++ List.replicate n n).length < n then none
    else if (p ++ List.replicate n n).drop ((p ++ List.replicate n n).length - n) =
        List.replicate n n then
      some ((p ++ List.replicate n n).take ((p ++ List.replicate n n).length - n))
    else none) = some p
  rw [if_neg hcond]
  have hlen : (p ++ List.replicate n n).length - n = p.length := by rw [hl]; omega
  have hdrop : (p ++ List.replicate n n).drop ((p ++ List.replicate n n).length - n) =
      List.replicate n n := by
    rw [hlen]; exact List.drop_left p _
  rw [if_pos hdrop, hlen, List.take_left]

lemma unpadBlock_padBlock (p : List Nat) : unpadBlock (padBlock p) = some p := by
  have h16 : p.length % 16 < 16 := Nat.mod_lt _ (by norm_num)
  show unpadBlock (p ++ List.replicate (16 - p.length % 16) (16 - p.length % 16)) = some p
  exact unpadBlock_append_replicate p _ (by omega) (by omega)

lemma mem_padBlock_lt {p : List Nat} (hb : ∀ b ∈ p, b < 256) :
    ∀ b ∈ padBlock p, b < 256 := by
  intro b hmem
  have h2 : b ∈ p ∨ b = 16 - p.length % 16 := by
    have h3 := hmem
    simp [padBlock, List.mem_replicate] at h3
    tauto
  rcases h2 with h | h
  · exact hb b h
  · omega

lemma decryptChunk_encryptChunk (p : List Nat) (k : String)
    (hb : ∀ b ∈ p, b < 256) : decryptChunk (encryptChunk p k) k = some p := by
  have hk := keyByte_lt k
  rw [encryptChunk, decryptChunk, List.map_map]
  have hmap : (padBlock p).map
      ((fun b => (b + (256 - keyByte k)) % 256) ∘ fun b => (b + keyByte k) % 256) =
      (padBlock p).map id := by
    apply List.map_congr_left
    intro b hbmem
    have hblt : b < 256 := mem_padBlock_lt hb b hbmem
    show ((b + keyByte k) % 256 + (256 - keyByte k)) % 256 = b
    rw [Nat.mod_add_mod]
    have he : b + keyByte k + (256 - keyByte k) = b + 256 := by omega
    rw [he, Nat.add_mod_right]
    exact Nat.mod_eq_of_lt hblt
  rw [hmap, List.map_id]
  exact unpadBlock_padBlock p

/-! ## Properties of the chunk split -/

lemma chunkSlices_single {l : List Nat} (h : l.length ≤ CHUNK_SIZE) :
    chunkSlices l = [l] := by
  rw [chunkSlices, if_pos h]

lemma chunkSlices_of_lt {l : List Nat} (h : CHUNK_SIZE < l.length) :
    chunkSlices l = (List.range ((l.length + CHUNK_SIZE - 1) / CHUNK_SIZE)).map
      (fun i => (l.drop (i * CHUNK_SIZE)).take CHUNK_SIZE) := by
  rw [chunkSlices, if_neg (by omega)]

lemma totalChunks_peel {L : Nat} (h : CHUNK_SIZE < L) :
    (L + CHUNK_SIZE - 1) / CHUNK_SIZE
      = ((L - CHUNK_SIZE) + CHUNK_SIZE - 1) / CHUNK_SIZE + 1 := by
  have hC := CHUNK_SIZE_pos
  have h1 : L + CHUNK_SIZE - 1 = (L - 1) + CHUNK_SIZE := by omega
  have h2 : L - CHUNK_SIZE + CHUNK_SIZE - 1 = L - 1 := by omega
  rw [h1, h2, Nat.add_div_right _ CHUNK_SIZE_pos]

lemma chunkSlices_peel {l : List Nat} (h : CHUNK_SIZE < l.length) :
    chunkSlices l = l.take CHUNK_SIZE :: chunkSlices (l.drop CHUNK_SIZE) := by
  have hC := CHUNK_SIZE_pos
  have hlen : (l.drop CHUNK_SIZE).length = l.length - CHUNK_SIZE :=
    List.length_drop _ _
  rw [chunkSlices_of_lt h, totalChunks_peel h, List.range_succ_eq_map,
    List.map_cons, Nat.zero_mul, List.drop_zero]
  congr 1
  case e_tail =>
    rw [List.map_map]
    by_cases hc : (l.drop CHUNK_SIZE).length ≤ CHUNK_SIZE
    · rw [chunkSlices_single hc]
      have ht1 : ((l.length - CHUNK_SIZE) + CHUNK_SIZE - 1) / CHUNK_SIZE = 1 := by
        apply Nat.div_eq_of_lt_le
        · rw [hlen] at hc; omega
        · rw [hlen] at hc; omega
      rw [ht1, show List.range 1 = [0] from rfl, List.map_cons, List.map_nil]
      have h10 : (Nat.succ 0) * CHUNK_SIZE = CHUNK_SIZE := by omega
      simp only [Function.comp_apply, h10]
      rw [List.take_of_length_le hc]
    · rw [chunkSlices_of_lt (by omega), hlen]
      apply List.map_congr_left
      intro i _
      simp only [Function.comp_apply]
      rw [List.drop_drop]
      have he : (Nat.succ i) * CHUNK_SIZE = CHUNK_SIZE + i * CHUNK_SIZE := by
        rw [Nat.succ_mul]; omega
      rw [he]

lemma chunkSlices_flatten (l : List Nat) : (chunkSlices l).flatten = l := by
  have H : ∀ (n : Nat) (l : List Nat), l.length ≤ n → (chunkSlices l).flatten = l := by
    intro n
    induction n with
    | zero =>
      intro l hl
      have hc : l.length ≤ CHUNK_SIZE := by have := CHUNK_SIZE_pos; omega
      rw [chunkSlices_single hc]
      simp
    | succ n ih =>
      intro l hl
      by_cases hc : l.length ≤ CHUNK_SIZE
      · rw [chunkSlices_single hc]; simp
      · rw [chunkSlices_peel (by omega), List.flatten_cons,
          ih _ (by rw [List.length_drop]; have := CHUNK_SIZE_pos; omega)]
        exact List.take_append_drop _ l
  exact H l.length l le_rfl

lemma chunkSlices_length {l : List Nat} (h : l ≠ []) :
    (chunkSlices l).length = (l.length + CHUNK_SIZE - 1) / CHUNK_SIZE := by
  have hpos : 0 < l.length := List.length_pos.mpr h
  have hC := CHUNK_SIZE_pos
  by_cases hc : l.length ≤ CHUNK_SIZE
  · have hdiv : (l.length + CHUNK_SIZE - 1) / CHUNK_SIZE = 1 := by
      apply Nat.div_eq_of_lt_le <;> omega
    rw [chunkSlices_single hc, hdiv]
    rfl
  · rw [chunkSlices_of_lt (by omega)]
    simp

lemma chunkSlices_getElem {l : List Nat} (i : Nat)
    (hi : i < (chunkSlices l).length) :
    (chunkSlices l)[i]? = some ((l.drop (i * CHUNK_SIZE)).take CHUNK_SIZE) := by
  by_cases hc : l.length ≤ CHUNK_SIZE
  · rw [chunkSlices_single hc] at hi ⊢
    have hi0 : i = 0 := by simpa using hi
    subst hi0
    simp [List.take_of_length_le hc]
  · rw [chunkSlices_of_lt (by omega)] at hi ⊢
    rw [List.getElem?_map, List.getElem?_range (by simpa using hi)]
    rfl

lemma mem_chunkSlices {l c : List Nat} (hc : c ∈ chunkSlices l) :
    ∀ b ∈ c, b ∈ l := by
  by_cases h : l.length ≤ CHUNK_SIZE
  · rw [chunkSlices_single h] at hc
    simp only [List.mem_singleton] at hc
    subst hc
    exact fun _ hb => hb
  · rw [chunkSlices_of_lt (by omega)] at hc
    simp only [List.mem_map, List.mem_range] at hc
    obtain ⟨i, _, rfl⟩ := hc
    intro b hb
    exact List.mem_of_mem_drop (List.mem_of_mem_take hb)

/-! ## The descriptor list and backend store produced by uploadFile -/

lemma lookup_enumFrom_map {α β : Type} (g : Nat → α → β) :
    ∀ (l : List α) (n i : Nat),
      ((l.enumFrom n).map (fun p => (p.1, g p.1 p.2))).lookup (n + i)
        = (l[i]?).map (g (n + i)) := by
  intro l
  induction l with
  | nil => intro n i; simp [List.lookup]
  | cons a t ih =>
    intro n i
    rw [List.enumFrom_cons, List.map_cons, List.lookup_cons]
    cases i with
    | zero => simp
    | succ i =>
      have hne : (n + (i + 1) == n) = false := beq_eq_false_iff_ne.mpr (by omega)
      rw [hne]
      have he : n + (i + 1) = (n + 1) + i := by omega
      rw [he, ih (n + 1) i]
      simp

lemma uploadFile_store_eq (fid : String) (B : List Nat) :
    (uploadFileModel fid B).2
      = (chunkSlices B).enum.map
          (fun p => (p.1, encryptChunk p.2 (generateEncryptionKey fid p.1))) := by
  simp only [uploadFileModel, List.map_map]
  rfl

lemma uploadFile_store_lookup (fid : String) (B : List Nat) (i : Nat) :
    ((uploadFileModel fid B).2).lookup i
      = ((chunkSlices B)[i]?).map
          (fun c => encryptChunk c (generateEncryptionKey fid i)) := by
  rw [uploadFile_store_eq, List.enum_eq_enumFrom]
  have := lookup_enumFrom_map
    (fun j c => encryptChunk c (generateEncryptionKey fid j)) (chunkSlices B) 0 i
  simpa using this

lemma uploadFile_chunks_eq (fid : String) (B : List Nat) :
    (uploadFileModel fid B).1.chunks
      = (chunkSlices B).enum.map (fun p => (uploadChunkModel fid p.1 p.2).1) := by
  simp only [uploadFileModel, List.map_map]
  rfl

lemma uploadFile_chunkIndexes (fid : String) (B : List Nat) :
    (uploadFileModel fid B).1.chunks.map TelegramChunk.chunkIndex
      = List.range (chunkSlices B).length := by
  rw [uploadFile_chunks_eq, List.map_map]
  have hfn : (TelegramChunk.chunkIndex ∘ fun p : Nat × List Nat =>
      (uploadChunkModel fid p.1 p.2).1) = Prod.fst := by
    funext p
    rfl
  rw [hfn, List.enum_map_fst]

/-! ## The defensive sort of the download path -/

lemma sorted_chunkLT_of_le_nodup {l : List TelegramChunk}
    (hs : l.Sorted chunkLE) (hn : (l.map TelegramChunk.chunkIndex).Nodup) :
    l.Sorted chunkLT := by
  have hne : l.Pairwise (fun a b => a.chunkIndex ≠ b.chunkIndex) :=
    (@List.pairwise_map _ _ TelegramChunk.chunkIndex (fun a b => a ≠ b) l).mp hn
  exact (hs.and hne).imp (fun h => lt_of_le_of_ne h.1 h.2)

lemma nodup_map_of_sorted_lt {l : List TelegramChunk} (h : l.Sorted chunkLT) :
    (l.map TelegramChunk.chunkIndex).Nodup :=
  (@List.pairwise_map _ _ TelegramChunk.chunkIndex (fun a b => a ≠ b) l).mpr
    (h.imp (fun hab => Nat.ne_of_lt hab))

lemma sortChunks_eq_self {l : List TelegramChunk} (h : l.Sorted chunkLT) :
    sortChunks l = l := by
  have hp : (sortChunks l).Perm l := List.perm_insertionSort _ _
  have hn : ((sortChunks l).map TelegramChunk.chunkIndex).Nodup :=
    ((hp.map TelegramChunk.chunkIndex).nodup_iff).mpr (nodup_map_of_sorted_lt h)
  exact List.eq_of_perm_of_sorted hp
    (sorted_chunkLT_of_le_nodup (List.sorted_insertionSort _ _) hn) h

lemma sortChunks_eq_of_perm {l₁ l₂ : List TelegramChunk} (hp : l₁.Perm l₂)
    (hn : (l₁.map TelegramChunk.chunkIndex).Nodup) :
    sortChunks l₁ = sortChunks l₂ := by
  have h12 : (sortChunks l₁).Perm (sortChunks l₂) :=
    (List.perm_insertionSort _ _).trans
      (hp.trans (List.perm_insertionSort _ _).symm)
  have hn2 : (l₂.map TelegramChunk.chunkIndex).Nodup :=
    ((hp.map TelegramChunk.chunkIndex).nodup_iff).mp hn
  have hs1 : ((sortChunks l₁).map TelegramChunk.chunkIndex).Nodup :=
    (((List.perm_insertionSort _ _).map TelegramChunk.chunkIndex).nodup_iff).mpr hn
  have hs2 : ((sortChunks l₂).map TelegramChunk.chunkIndex).Nodup :=
    (((List.perm_insertionSort _ _).map TelegramChunk.chunkIndex).nodup_iff).mpr hn2
  exact List.eq_of_perm_of_sorted h12
    (sorted_chunkLT_of_le_nodup (List.sorted_insertionSort _ _) hs1)
    (sorted_chunkLT_of_le_nodup (List.sorted_insertionSort _ _) hs2)

/-! ## The sequential download loop -/

lemma downloadGo_forall2 (backend : Nat → Option (List Nat)) (fid : String)
    {ds : List TelegramChunk} {ss : List (List Nat)}
    (h : List.Forall₂ (fun d s => processChunk backend fid d = .ok s) ds ss) :
    downloadGo backend fid ds = .ok ss.flatten := by
  induction h with
  | nil => rfl
  | cons hhead _ ih => simp [downloadGo, hhead, ih, List.flatten_cons]

lemma forall2_enumFrom_map {α β : Type} (R : β → α → Prop) (g : Nat → α → β) :
    ∀ (l : List α) (n : Nat),
      (∀ (i : Nat) (a : α), l[i]? = some a → R (g (n + i) a) a) →
      List.Forall₂ R ((l.enumFrom n).map (fun p => g p.1 p.2)) l := by
  intro l
  induction l with
  | nil => intro n _; exact List.Forall₂.nil
  | cons a t ih =>
    intro n hR
    rw [List.enumFrom_cons, List.map_cons]
    refine List.Forall₂.cons ?_ ?_
    · simpa using hR 0 a (by simp)
    · apply ih (n + 1)
      intro i x hx
      have hr := hR (i + 1) x (by simpa using hx)
      have he : n + (i + 1) = (n + 1) + i := by omega
      rwa [he] at hr

lemma processChunk_uploadFile_ok (fid : String) (B : List Nat)
    (hb : ∀ b ∈ B, b < 256) (i : Nat) (s : List Nat)
    (hs : (chunkSlices B)[i]? = some s) :
    processChunk (fun r => ((uploadFileModel fid B).2).lookup r) fid
      (uploadChunkModel fid i s).1 = .ok s := by
  have hmem : ∀ b ∈ s, b < 256 := by
    intro b hbmem
    exact hb b (mem_chunkSlices (List.getElem?_mem hs) b hbmem)
  have hstore : ((uploadFileModel fid B).2).lookup i
      = some (encryptChunk s (generateEncryptionKey fid i)) := by
    rw [uploadFile_store_lookup, hs]
    rfl
  have hdec := decryptChunk_encryptChunk s (generateEncryptionKey fid i) hmem
  simp [processChunk, uploadChunkModel, hstore, hdec]

lemma downloadFile_roundtrip (fid : String) (B : List Nat)
    (hb : ∀ b ∈ B, b < 256) :
    downloadFileByChunks (fun r => ((uploadFileModel fid B).2).lookup r) fid
      (uploadFileModel fid B).1.chunks = .ok B := by
  have hsorted : (uploadFileModel fid B).1.chunks.Sorted chunkLT := by
    have hplt : List.Pairwise (fun a b : Nat => a < b)
        ((uploadFileModel fid B).1.chunks.map TelegramChunk.chunkIndex) := by
      rw [uploadFile_chunkIndexes]
      exact List.pairwise_lt_range _
    exact (@List.pairwise_map _ _ TelegramChunk.chunkIndex (fun a b => a < b)
      (uploadFileModel fid B).1.chunks).mp hplt
  rw [downloadFileByChunks, sortChunks_eq_self hsorted]
  have hf2 : List.Forall₂
      (fun d s => processChunk (fun r => ((uploadFileModel fid B).2).lookup r)
        fid d = .ok s)
      ((uploadFileModel fid B).1.chunks) (chunkSlices B) := by
    rw [uploadFile_chunks_eq, List.enum_eq_enumFrom]
    apply forall2_enumFrom_map _ (fun i s => (uploadChunkModel fid i s).1)
      (chunkSlices B) 0
    intro i a ha
    simpa using processChunk_uploadFile_ok fid B hb i a ha
  rw [downloadGo_forall2 _ _ hf2, chunkSlices_flatten]

lemma downloadGo_ok_of_mem {backend : Nat → Option (List Nat)} {fid : String} :
    ∀ {ds : List TelegramChunk} {out : List Nat},
      downloadGo backend fid ds = .ok out →
      ∀ c ∈ ds, ∃ p, processChunk backend fid c = .ok p := by
  intro ds
  induction ds with
  | nil => intro out _ c hc; exact absurd hc (List.not_mem_nil c)
  | cons c rest ih =>
    intro out h d hd
    rw [downloadGo] at h
    cases hpc : processChunk backend fid c with
    | error e => rw [hpc] at h; exact absurd h (by simp)
    | ok p =>
      rw [hpc] at h
      cases hgo : downloadGo backend fid rest with
      | error e => rw [hgo] at h; exact absurd h (by simp)
      | ok ps =>
        rcases List.mem_cons.mp hd with rfl | hd2
        · exact ⟨p, hpc⟩
        · exact ih hgo d hd2

/-! ## The queue invariant -/

lemma map_uploadId_of_preserve {l : List UploadFile} (f : UploadFile → UploadFile)
    (hid : ∀ u, (f u).id = u.id) :
    (l.map f).map UploadFile.id = l.map UploadFile.id := by
  rw [List.map_map]
  exact List.map_congr_left (fun a _ => hid a)

lemma QInv_map_update {l : List UploadFile} {act : List String}
    (f : UploadFile → UploadFile)
    (hid : ∀ u, (f u).id = u.id)
    (hst : ∀ u, (f u).status = .uploading → u.status = .uploading)
    (h : QInv ⟨l, act⟩) : QInv ⟨l.map f, act⟩ := by
  obtain ⟨h1, h2, h3, h4⟩ := h
  refine ⟨?_, h2, h3, ?_⟩
  · intro u hu hust
    rcases List.mem_map.mp hu with ⟨v, hv, rfl⟩
    rw [hid v]
    exact h1 v hv (hst v hust)
  · rw [map_uploadId_of_preserve f hid]
    exact h4

lemma mem_removeFromActive {act : List String} {x id : String} :
    x ∈ removeFromActive act id ↔ x ∈ act ∧ x ≠ id := by
  simp [removeFromActive, List.mem_filter]

lemma QInv_removeActive {l : List UploadFile} {act : List String} (id : String)
    (hup : ∀ u ∈ l, u.id = id → u.status ≠ .uploading)
    (h : QInv ⟨l, act⟩) : QInv ⟨l, removeFromActive act id⟩ := by
  obtain ⟨h1, h2, h3, h4⟩ := h
  refine ⟨?_, h2.filter _, le_trans (List.length_filter_le _ _) h3, h4⟩
  intro u hu hust
  rw [mem_removeFromActive]
  exact ⟨h1 u hu hust, fun he => hup u hu he hust⟩

lemma mem_addToActive_self (act : List String) (id : String) :
    id ∈ addToActive act id := by
  by_cases h : id ∈ act <;> simp [addToActive, h]

lemma mem_addToActive_of_mem {act : List String} {x : String} (id : String)
    (h : x ∈ act) : x ∈ addToActive act id := by
  by_cases hm : id ∈ act <;> simp [addToActive, hm, h]

lemma QInv_step {s t : QState} (h : QInv s) (hstep : QStep s t) : QInv t := by
  obtain ⟨h1, h2, h3, h4⟩ := h
  cases hstep with
  | add u huid hust =>
    refine ⟨?_, h2, h3, ?_⟩
    · intro v hv hvst
      rcases List.mem_append.mp hv with hv | hv
      · exact h1 v hv hvst
      · simp only [List.mem_singleton] at hv
        subst hv
        rw [hust] at hvst
        exact absurd hvst (by simp)
    · rw [List.map_append]
      rw [List.nodup_append]
      refine ⟨h4, List.nodup_singleton _, ?_⟩
      intro x hx hx2
      simp only [List.map_cons, List.map_nil, List.mem_singleton] at hx2
      subst hx2
      exact huid hx
  | start id hmem hcap =>
    have hid : ∀ u : UploadFile,
        ((fun u : UploadFile =>
          if u.id = id then { u with status := UploadStatus.uploading, error := none }
          else u) u).id = u.id := by
      intro u
      by_cases hu : u.id = id <;> simp [hu]
    refine ⟨?_, ?_, ?_, ?_⟩
    · intro v hv hvst
      rcases List.mem_map.mp hv with ⟨w, hw, rfl⟩
      by_cases hwid : w.id = id
      · rw [hid w, hwid]
        exact mem_addToActive_self _ _
      · simp only [if_neg hwid] at hvst ⊢
        exact mem_addToActive_of_mem id (h1 w hw hvst)
    · by_cases hm : id ∈ s.active
      · simpa [addToActive, hm] using h2
      · simp only [addToActive, if_neg hm]
        exact List.nodup_cons.mpr ⟨hm, h2⟩
    · have hlt : s.active.length < MAX_CONCURRENT_UPLOADS := by
        have := of_decide_eq_true hcap
        exact this
      by_cases hm : id ∈ s.active
      · simpa [addToActive, hm] using h3
      · simp only [addToActive, if_neg hm, List.length_cons]
        omega
    · rw [show (⟨startUploading s.uploads id, addToActive s.active id⟩ : QState).uploads
          = startUploading s.uploads id from rfl, startUploading,
        map_uploadId_of_preserve _ hid]
      exact h4
  | complete id =>
    apply QInv_map_update _ ?_ ?_ ⟨h1, h2, h3, h4⟩
    · intro u; by_cases hu : u.id = id <;> simp [hu]
    · intro u hu
      by_cases h : u.id = id
      · rw [if_pos h] at hu; exact absurd hu (by simp)
      · rwa [if_neg h] at hu
  | fail id msg =>
    apply QInv_map_update _ ?_ ?_ ⟨h1, h2, h3, h4⟩
    · intro u; by_cases hu : u.id = id <;> simp [hu]
    · intro u hu
      by_cases h : u.id = id
      · rw [if_pos h] at hu; exact absurd hu (by simp)
      · rwa [if_neg h] at hu
  | abortPaused id =>
    apply QInv_map_update _ ?_ ?_ ⟨h1, h2, h3, h4⟩
    · intro u; by_cases hu : u.id = id <;> simp [hu]
    · intro u hu
      by_cases h : u.id = id
      · rw [if_pos h] at hu; exact absurd hu (by simp)
      · rwa [if_neg h] at hu
  | finallyRemove id hnot =>
    exact QInv_removeActive id hnot ⟨h1, h2, h3, h4⟩
  | progress id cc pr ch =>
    apply QInv_map_update _ ?_ ?_ ⟨h1, h2, h3, h4⟩
    · intro u; by_cases hu : u.id = id <;> simp [hu]
    · intro u hu
      by_cases h : u.id = id
      · rw [if_pos h] at hu
        simpa using hu
      · rwa [if_neg h] at hu
  | pause id =>
    have hinv2 : QInv ⟨pauseUpload s.uploads id, s.active⟩ := by
      apply QInv_map_update _ ?_ ?_ ⟨h1, h2, h3, h4⟩
      · intro u
        by_cases hu : u.id = id ∧ u.status = .uploading <;> simp [hu]
      · intro u hu
        by_cases h : u.id = id ∧ u.status = .uploading
        · rw [if_pos h] at hu; exact absurd hu (by simp)
        · rwa [if_neg h] at hu
    obtain ⟨g1, g2, g3, g4⟩ := hinv2
    refine ⟨?_, g2.filter _, le_trans (List.length_filter_le _ _) g3, g4⟩
    intro u hu hust
    rw [mem_removeFromActive]
    refine ⟨g1 u hu hust, ?_⟩
    rcases List.mem_map.mp hu with ⟨w, hw, rfl⟩
    by_cases h : w.id = id ∧ w.status = .uploading
    · rw [if_pos h] at hust ⊢
      exact absurd hust (by simp)
    · rw [if_neg h] at hust ⊢
      intro he
      exact h ⟨he, hust⟩
  | cancel id =>
    have hinv2 : QInv ⟨cancelUpload s.uploads id, s.active⟩ := by
      apply QInv_map_update _ ?_ ?_ ⟨h1, h2, h3, h4⟩
      · intro u; by_cases hu : u.id = id <;> simp [hu]
      · intro u hu
        by_cases h : u.id = id
        · rw [if_pos h] at hu; exact absurd hu (by simp)
        · rwa [if_neg h] at hu
    obtain ⟨g1, g2, g3, g4⟩ := hinv2
    refine ⟨?_, g2.filter _, le_trans (List.length_filter_le _ _) g3, g4⟩
    intro u hu hust
    rw [mem_removeFromActive]
    refine ⟨g1 u hu hust, ?_⟩
    rcases List.mem_map.mp hu with ⟨w, hw, rfl⟩
    by_cases h : w.id = id
    · rw [if_pos h] at hust ⊢
      exact absurd hust (by simp)
    · rw [if_neg h] at hust ⊢
      intro he
      exact h he
  | resume id =>
    apply QInv_map_update _ ?_ ?_ ⟨h1, h2, h3, h4⟩
    · intro u
      by_cases hu : u.id = id ∧ u.status = .paused <;> simp [hu]
    · intro u hu
      by_cases h : u.id = id ∧ u.status = .paused
      · rw [if_pos h] at hu; exact absurd hu (by simp)
      · rwa [if_neg h] at hu
  | retryErr id =>
    apply QInv_map_update _ ?_ ?_ ⟨h1, h2, h3, h4⟩
    · intro u
      by_cases hu : u.id = id ∧ u.status = .error ∧ u.retryCount < RETRY_ATTEMPTS * 2 <;>
        simp [hu]
    · intro u hu
      by_cases h : u.id = id ∧ u.status = .error ∧ u.retryCount < RETRY_ATTEMPTS * 2
      · rw [if_pos h] at hu; exact absurd hu (by simp)
      · rwa [if_neg h] at hu
  | remove id =>
    refine ⟨?_, h2.filter _, le_trans (List.length_filter_le _ _) h3, ?_⟩
    · intro u hu hust
      have hm := List.mem_filter.mp hu
      rw [mem_removeFromActive]
      refine ⟨h1 u hm.1 hust, by simpa using hm.2⟩
    · exact h4.sublist ((List.filter_sublist _).map UploadFile.id)

lemma QInv_reachable {s : QState} (h : ReachableQ s) : QInv s := by
  induction h with
  | init =>
    refine ⟨?_, List.nodup_nil, ?_, ?_⟩
    · intro u hu; exact absurd hu (List.not_mem_nil u)
    · simp
    · simp
  | step _ hstep ih => exact QInv_step ih hstep

lemma countUploading_le_of_QInv {s : QState} (h : QInv s) :
    countUploading s.uploads ≤ MAX_CONCURRENT_UPLOADS := by
  obtain ⟨h1, _, h3, h4⟩ := h
  have hsub : ((s.uploads.filter (fun u => u.status == .uploading)).map
      UploadFile.id) ⊆ s.active := by
    intro x hx
    rcases List.mem_map.mp hx with ⟨u, hu, rfl⟩
    have hm := List.mem_filter.mp hu
    exact h1 u hm.1 (by simpa using hm.2)
  have hnd : ((s.uploads.filter (fun u => u.status == .uploading)).map
      UploadFile.id).Nodup :=
    h4.sublist ((List.filter_sublist _).map UploadFile.id)
  have hle := (hnd.subperm hsub).length_le
  rw [List.length_map] at hle
  exact le_trans hle h3

/-! ## The chunk loop index sequence -/

lemma loopFrom_eq_range (i total : Nat) :
    loopFrom i total = List.range' i (total - i) := by
  have H : ∀ (k i total : Nat), total - i ≤ k →
      loopFrom i total = List.range' i (total - i) := by
    intro k
    induction k with
    | zero =>
      intro i total hk
      rw [loopFrom, if_neg (by omega)]
      have : total - i = 0 := by omega
      rw [this]
      rfl
    | succ k ih =>
      intro i total hk
      by_cases hi : i < total
      · rw [loopFrom, if_pos hi, ih (i + 1) total (by omega)]
        have he : total - i = (total - (i + 1)) + 1 := by omega
        rw [he, List.range'_succ]
      · rw [loopFrom, if_neg hi]
        have : total - i = 0 := by omega
        rw [this]
        rfl
  exact H (total - i) i total le_rfl

lemma loopFrom_lower_bound {i total j : Nat} (h : j ∈ loopFrom i total) : i ≤ j := by
  rw [loopFrom_eq_range, List.mem_range'] at h
  obtain ⟨m, _, rfl⟩ := h
  omega

/-! ## The retry loop -/

lemma fetchGo_all_retryable (env : Nat → FetchStep) (sa : Nat → Bool)
    (retries code : Nat) (hcode : code ∈ retryStatuses)
    (henv : ∀ n, env n = FetchStep.status code) (hsa : ∀ n, sa n = false) :
    ∀ (fuel attempt : Nat), attempt + fuel = retries + 1 → attempt ≤ retries →
      fetchGo env sa retries attempt fuel = (.response code, retries + 1) := by
  intro fuel
  induction fuel with
  | zero => intro attempt h1 h2; omega
  | succ fuel ih =>
    intro attempt h1 h2
    have hun : fetchGo env sa retries attempt (fuel + 1)
        = if code ∉ retryStatuses ∨ attempt = retries then
            (.response code, attempt + 1)
          else if sa attempt then (.abortThrown, attempt + 1)
          else fetchGo env sa retries (attempt + 1) fuel := by
      rw [fetchGo, henv attempt]
    rw [hun]
    by_cases hat : attempt = retries
    · rw [if_pos (Or.inr hat)]
      rw [hat]
    · rw [if_neg (by
        intro hc
        rcases hc with hc | hc
        · exact hc hcode
        · exact hat hc), hsa attempt, if_neg (by simp)]
      exact ih (attempt + 1) (by omega) (by omega)

lemma fetchGo_abort_during_sleep (env : Nat → FetchStep) (retries code n : Nat)
    (hcode : code ∈ retryStatuses)
    (henv : ∀ k, k ≤ n → env k = FetchStep.status code)
    (hn : n < retries) :
    ∀ (fuel attempt : Nat), attempt + fuel = retries + 1 → attempt ≤ n →
      fetchGo env (fun k => decide (k = n)) retries attempt fuel
        = (.abortThrown, n + 1) := by
  intro fuel
  induction fuel with
  | zero => intro attempt h1 h2; omega
  | succ fuel ih =>
    intro attempt h1 h2
    have hun : fetchGo env (fun k => decide (k = n)) retries attempt (fuel + 1)
        = if code ∉ retryStatuses ∨ attempt = retries then
            (.response code, attempt + 1)
          else if decide (attempt = n) then (.abortThrown, attempt + 1)
          else fetchGo env (fun k => decide (k = n)) retries (attempt + 1) fuel := by
      rw [fetchGo, henv attempt h2]
    rw [hun]
    rw [if_neg (by
      intro hc
      rcases hc with hc | hc
      · exact hc hcode
      · omega)]
    by_cases hat : attempt = n
    · rw [if_pos (by simp [hat])]
      rw [hat]
    · rw [if_neg (by simp [hat])]
      exact ih (attempt + 1) (by omega) (by omega)

/-! ## Behaviour of the per-chunk download path on a hash mismatch -/

lemma processChunk_mismatch {backend : Nat → Option (List Nat)} {fid : String}
    {c : TelegramChunk} {ref : Nat} {bytes : List Nat}
    (h1 : c.fileId = some ref) (h2 : backend ref = some bytes)
    (h3 : hashHex bytes ≠ c.encryptedHash) :
    processChunk backend fid c = .error (.decryptFailed c.chunkIndex) ∨
    processChunk backend fid c = .error (.integrityFailed c.chunkIndex) := by
  cases hdec : decryptChunk bytes (generateEncryptionKey fid c.chunkIndex) with
  | none => left; simp [processChunk, h1, h2, hdec]
  | some p => right; simp [processChunk, h1, h2, hdec, h3]

lemma processChunk_mismatch_integrity {backend : Nat → Option (List Nat)}
    {fid : String} {c : TelegramChunk} {ref : Nat} {bytes p : List Nat}
    (h1 : c.fileId = some ref) (h2 : backend ref = some bytes)
    (hdec : decryptChunk bytes (generateEncryptionKey fid c.chunkIndex) = some p)
    (h3 : hashHex bytes ≠ c.encryptedHash) :
    processChunk backend fid c = .error (.integrityFailed c.chunkIndex) := by
  simp [processChunk, h1, h2, hdec, h3]

/-! ## Shape facts about uploadFile and addUploads -/

lemma uploadFile_totalChunks (fid : String) (B : List Nat) :
    (uploadFileModel fid B).1.totalChunks = (chunkSlices B).length := by
  simp [uploadFileModel]

lemma slice_length_full {B : List Nat} {i : Nat} (hB : B ≠ [])
    (h : i + 1 < (chunkSlices B).length) :
    ((B.drop (i * CHUNK_SIZE)).take CHUNK_SIZE).length = CHUNK_SIZE := by
  rw [chunkSlices_length hB] at h
  rw [List.length_take, List.length_drop]
  have hC := CHUNK_SIZE_pos
  have h2 : i + 2 ≤ (B.length + CHUNK_SIZE - 1) / CHUNK_SIZE := by omega
  have h3 : (i + 2) * CHUNK_SIZE ≤ B.length + CHUNK_SIZE - 1 :=
    (Nat.le_div_iff_mul_le hC).mp h2
  have h4 : (i + 2) * CHUNK_SIZE = i * CHUNK_SIZE + CHUNK_SIZE + CHUNK_SIZE := by
    ring
  omega

lemma slice_length_last {B : List Nat} (hB : B ≠ []) :
    ((B.drop (((chunkSlices B).length - 1) * CHUNK_SIZE)).take CHUNK_SIZE).length
      = B.length - ((chunkSlices B).length - 1) * CHUNK_SIZE := by
  have hC := CHUNK_SIZE_pos
  have hL : 0 < B.length := List.length_pos.mpr hB
  rw [chunkSlices_length hB]
  have ht1 : 1 ≤ (B.length + CHUNK_SIZE - 1) / CHUNK_SIZE :=
    (Nat.le_div_iff_mul_le hC).mpr (by omega)
  have hub : B.length + CHUNK_SIZE - 1
      < ((B.length + CHUNK_SIZE - 1) / CHUNK_SIZE + 1) * CHUNK_SIZE :=
    (Nat.div_lt_iff_lt_mul hC).mp (by omega)
  generalize hgen : (B.length + CHUNK_SIZE - 1) / CHUNK_SIZE = t at ht1 hub ⊢
  obtain ⟨k, rfl⟩ : ∃ k, t = k + 1 := ⟨t - 1, by omega⟩
  have hexp : (k + 1 + 1) * CHUNK_SIZE = k * CHUNK_SIZE + CHUNK_SIZE + CHUNK_SIZE := by
    ring
  rw [hexp] at hub
  have hk : k + 1 - 1 = k := by omega
  rw [hk, List.length_take, List.length_drop]
  omega

lemma chunkSlices_twelveMiB {B : List Nat} (hlen : B.length = 12 * 1024 * 1024) :
    (chunkSlices B).map List.length
      = [5 * 1024 * 1024, 5 * 1024 * 1024, 2 * 1024 * 1024] := by
  have hC : CHUNK_SIZE < B.length := by rw [hlen]; norm_num [CHUNK_SIZE]
  have ht : (B.length + CHUNK_SIZE - 1) / CHUNK_SIZE = 3 := by
    rw [hlen]; norm_num [CHUNK_SIZE]
  rw [chunkSlices_of_lt hC, ht, show List.range 3 = [0, 1, 2] from rfl]
  simp only [List.map_cons, List.map_nil, List.length_take, List.length_drop]
  rw [hlen]
  norm_num [CHUNK_SIZE]

lemma uploadFile_chunks_getElem (fid : String) (B : List Nat) (i : Nat) :
    (uploadFileModel fid B).1.chunks[i]?
      = ((chunkSlices B)[i]?).map (fun c => (uploadChunkModel fid i c).1) := by
  rw [uploadFile_chunks_eq, List.getElem?_map, List.getElem?_enum]
  cases h : (chunkSlices B)[i]? <;> simp

lemma addUploads_eq (files : List FileIn) :
    addUploads files = (files.filter (fun f => f.size != 0)).map mkUpload := by
  induction files with
  | nil => rfl
  | cons f t ih =>
    by_cases h : f.size = 0
    · simpa [addUploads, List.filterMap_cons, List.filter_cons, h] using ih
    · simpa [addUploads, List.filterMap_cons, List.filter_cons, h] using ih

/-! ## The claims -/

/-- C1: round-trip.  With the backend modelled as returning for each chunk
exactly the encrypted bytes `uploadFile` transmitted (the store returned by
`uploadFileModel`), `downloadFileByChunks` applied to the upload result
reproduces the original buffer byte for byte; and for every plaintext
buffer of bytes and every key, `decryptChunk` inverts `encryptChunk`. -/
theorem uploadFile_downloadFile_roundtrip (fid : String) (B : List Nat)
    (_hB : B ≠ []) (hb : ∀ b ∈ B, b < 256) :
    (downloadFileByChunks (fun r => ((uploadFileModel fid B).2).lookup r) fid
      (uploadFileModel fid B).1.chunks = .ok B) ∧
    (∀ (p : List Nat) (k : String), (∀ b ∈ p, b < 256) →
      decryptChunk (encryptChunk p k) k = some p) :=
  ⟨downloadFile_roundtrip fid B hb,
   fun p k hp => decryptChunk_encryptChunk p k hp⟩

/-- C1 witness: the round-trip at the concrete buffer `[1, 2, 3]`. -/
theorem uploadFile_downloadFile_roundtrip_witness :
    ([1, 2, 3] : List Nat) ≠ [] ∧
    downloadFileByChunks
        (fun r => ((uploadFileModel "file" [1, 2, 3]).2).lookup r) "file"
        (uploadFileModel "file" [1, 2, 3]).1.chunks = .ok [1, 2, 3] :=
  ⟨by decide,
   (uploadFile_downloadFile_roundtrip "file" [1, 2, 3] (by decide)
      (by decide)).1⟩

/-- C2 counterexample: the download path decrypts BEFORE comparing the
hash (src part_012 lines 270-273), so a stored chunk whose bytes fail the
cipher's padding check surfaces a decryption failure, not the integrity
error, even though the recomputed hash differs from the descriptor's. -/
theorem download_verify_order_cex :
    hashHex [] ≠ "x" ∧
    processChunk (fun r => if r = 0 then some [] else none) "file"
      ⟨"file_0", 0, 0, "x", some 0⟩ = .error (.decryptFailed 0) ∧
    (Except.error (ChunkError.decryptFailed 0) : Except ChunkError (List Nat))
      ≠ .error (.integrityFailed 0) :=
  ⟨by decide, by rfl, by decide⟩

/-- C2 (amended): the download path fetches the encrypted bytes, decrypts
them, and only then recomputes the SHA-256 digest and compares it against
`descriptor.encryptedHash`; on a mismatch the operation always fails with
an error identifying that chunk — the integrity error when decryption
succeeded, a wrapped decryption error otherwise — and no plaintext,
altered or otherwise, is ever returned to the caller. -/
theorem download_integrity_mismatch_fails
    (backend : Nat → Option (List Nat)) (fid : String) (c : TelegramChunk)
    (ref : Nat) (bytes : List Nat)
    (h1 : c.fileId = some ref) (h2 : backend ref = some bytes)
    (h3 : hashHex bytes ≠ c.encryptedHash) :
    (∃ e : ChunkError, processChunk backend fid c = .error e ∧
      e.index = c.chunkIndex) ∧
    (∀ p, processChunk backend fid c ≠ .ok p) ∧
    (∀ p, decryptChunk bytes (generateEncryptionKey fid c.chunkIndex) = some p →
      processChunk backend fid c = .error (.integrityFailed c.chunkIndex)) ∧
    (∀ (chunks : List TelegramChunk) (out : List Nat), c ∈ chunks →
      downloadFileByChunks backend fid chunks ≠ .ok out) := by
  have hor := @processChunk_mismatch backend fid c ref bytes h1 h2 h3
  refine ⟨?_, ?_, ?_, ?_⟩
  · rcases hor with h | h
    · exact ⟨_, h, rfl⟩
    · exact ⟨_, h, rfl⟩
  · intro p hp
    rcases hor with h | h <;> rw [h] at hp <;> exact Except.noConfusion hp
  · intro p hdec
    exact processChunk_mismatch_integrity h1 h2 hdec h3
  · intro chunks out hmem hok
    rw [downloadFileByChunks] at hok
    have hmem2 : c ∈ sortChunks chunks :=
      ((List.perm_insertionSort _ chunks).mem_iff).mpr hmem
    obtain ⟨p, hp⟩ := downloadGo_ok_of_mem hok c hmem2
    rcases hor with h | h <;> rw [h] at hp <;> exact Except.noConfusion hp

/-- C2 witness: a concrete chunk whose stored bytes hash to something
other than the descriptor hash is never returned as plaintext. -/
theorem download_integrity_mismatch_fails_witness :
    (⟨"file_0", 0, 0, "x", some 0⟩ : TelegramChunk).fileId = some 0 ∧
    hashHex [] ≠ "x" ∧
    (∀ p, processChunk (fun r => if r = 0 then some [] else none) "file"
      ⟨"file_0", 0, 0, "x", some 0⟩ ≠ .ok p) :=
  ⟨rfl, by decide,
   (download_integrity_mismatch_fails (fun r => if r = 0 then some [] else none)
      "file" ⟨"file_0", 0, 0, "x", some 0⟩ 0 [] rfl rfl (by decide)).2.1⟩

/-- C3: retry budget.  Against a backend whose every attempt yields a
retryable status (503), `fetchWithRetry` performs exactly `retries + 1`
attempts (5 under the default budget of 4 retries) and surfaces the
failing response to the caller; a non-OK status outside
{429, 500, 502, 503, 504} is surfaced after exactly one attempt. -/
theorem fetchWithRetry_budget :
    (∀ (env : Nat → FetchStep) (sa : Nat → Bool) (retries : Nat),
      (∀ n, env n = FetchStep.status 503) → (∀ n, sa n = false) →
      fetchWithRetry env sa retries = (.response 503, retries + 1)) ∧
    (∀ (env : Nat → FetchStep) (sa : Nat → Bool),
      (∀ n, env n = FetchStep.status 503) → (∀ n, sa n = false) →
      fetchWithRetry env sa 4 = (.response 503, 5)) ∧
    (∀ (env : Nat → FetchStep) (sa : Nat → Bool) (retries code : Nat),
      env 0 = FetchStep.status code → code ∉ retryStatuses →
      fetchWithRetry env sa retries = (.response code, 1)) := by
  refine ⟨?_, ?_, ?_⟩
  · intro env sa retries henv hsa
    exact fetchGo_all_retryable env sa retries 503 (by decide) henv hsa
      (retries + 1) 0 (by omega) (by omega)
  · intro env sa henv hsa
    exact fetchGo_all_retryable env sa 4 503 (by decide) henv hsa 5 0
      (by omega) (by omega)
  · intro env sa retries code henv hcode
    have hun : fetchWithRetry env sa retries
        = if code ∉ retryStatuses ∨ 0 = retries then (.response code, 0 + 1)
          else if sa 0 then (.abortThrown, 0 + 1)
          else fetchGo env sa retries (0 + 1) retries := by
      rw [fetchWithRetry, fetchGo, henv]
    rw [hun, if_pos (Or.inl hcode)]

/-- C3 witness: the always-503 backend exhausts 5 attempts under the
default budget; a 404 is surfaced after one attempt. -/
theorem fetchWithRetry_budget_witness :
    fetchWithRetry (fun _ => FetchStep.status 503) (fun _ => false) 4
      = (.response 503, 5) ∧
    fetchWithRetry (fun _ => FetchStep.status 404) (fun _ => false) 4
      = (.response 404, 1) :=
  ⟨fetchWithRetry_budget.2.1 (fun _ => .status 503) (fun _ => false)
      (fun _ => rfl) (fun _ => rfl),
   fetchWithRetry_budget.2.2 (fun _ => .status 404) (fun _ => false) 4 404
      rfl (by decide)⟩

/-- C4: concurrency cap.  In every state reachable by the queue's
transitions (adding records, the scheduler's promotion guarded by
`canStartUpload`, completion, failure, pause, cancel, resume, retry,
removal, the `finally` bookkeeping), the number of records in the
`uploading` state never exceeds `MAX_CONCURRENT_UPLOADS = 3`. -/
theorem upload_concurrency_cap (s : QState) (h : ReachableQ s) :
    countUploading s.uploads ≤ MAX_CONCURRENT_UPLOADS :=
  countUploading_le_of_QInv (QInv_reachable h)

/-- C4 witness: a concrete two-step run (add a pending record, promote it)
stays within the cap. -/
theorem upload_concurrency_cap_witness :
    countUploading (startUploading ([] ++ [({ id := "a", size := 1, status := .pending, error := none, progress := 0, chunks := [], totalChunks := 1, currentChunk := 0, retryCount := 0, aborted := false } : UploadFile)]) "a") ≤ MAX_CONCURRENT_UPLOADS :=
  upload_concurrency_cap _
    (ReachableQ.step
      (ReachableQ.step ReachableQ.init
        (QStep.add ⟨[], []⟩ ({ id := "a", size := 1, status := .pending, error := none, progress := 0, chunks := [], totalChunks := 1, currentChunk := 0, retryCount := 0, aborted := false } : UploadFile) (by simp) rfl))
      (QStep.start ⟨[] ++ [({ id := "a", size := 1, status := .pending, error := none, progress := 0, chunks := [], totalChunks := 1, currentChunk := 0, retryCount := 0, aborted := false } : UploadFile)], []⟩ "a" ⟨({ id := "a", size := 1, status := .pending, error := none, progress := 0, chunks := [], totalChunks := 1, currentChunk := 0, retryCount := 0, aborted := false } : UploadFile), by simp, rfl, rfl⟩ (by decide)))

/-- C5: chunk ordering invariance.  For descriptor lists with
pairwise-distinct `chunkIndex` values, `downloadFileByChunks` yields the
same result on every permutation of the list, because it sorts by
`chunkIndex` before fetching and concatenating. -/
theorem download_order_invariance (backend : Nat → Option (List Nat))
    (fid : String) (l₁ l₂ : List TelegramChunk) (hp : l₁.Perm l₂)
    (hn : (l₁.map TelegramChunk.chunkIndex).Nodup) :
    downloadFileByChunks backend fid l₁ = downloadFileByChunks backend fid l₂ := by
  rw [downloadFileByChunks, downloadFileByChunks, sortChunks_eq_of_perm hp hn]

/-- C5 witness: a concrete two-element permutation gives equal downloads. -/
theorem download_order_invariance_witness :
    ([⟨"a", 0, 0, "h0", some 0⟩, ⟨"b", 1, 1, "h1", some 1⟩] :
        List TelegramChunk).Perm
      [⟨"b", 1, 1, "h1", some 1⟩, ⟨"a", 0, 0, "h0", some 0⟩] ∧
    downloadFileByChunks (fun _ => none) "f"
        [⟨"a", 0, 0, "h0", some 0⟩, ⟨"b", 1, 1, "h1", some 1⟩]
      = downloadFileByChunks (fun _ => none) "f"
        [⟨"b", 1, 1, "h1", some 1⟩, ⟨"a", 0, 0, "h0", some 0⟩] :=
  ⟨by decide,
   download_order_invariance (fun _ => none) "f" _ _ (by decide) (by decide)⟩

/-- C6: chunk-split arithmetic.  For a non-empty buffer, `uploadFile`
produces `totalChunks = ceil(len / CHUNK_SIZE)` chunks (equal to the
length of the returned chunks array), with chunk indices 0..totalChunks-1
in order, chunk `i` carrying bytes `[i*CHUNK_SIZE, min((i+1)*CHUNK_SIZE,
len))`, every non-final chunk of full `CHUNK_SIZE` length and the final
chunk carrying the remainder; a 12 MiB buffer yields exactly 3 chunks of
5, 5 and 2 MiB. -/
theorem uploadFile_chunk_arithmetic (fid : String) (B : List Nat)
    (hB : B ≠ []) :
    (uploadFileModel fid B).1.totalChunks
        = (B.length + CHUNK_SIZE - 1) / CHUNK_SIZE ∧
    (uploadFileModel fid B).1.totalChunks
        = (uploadFileModel fid B).1.chunks.length ∧
    (uploadFileModel fid B).1.chunks.map TelegramChunk.chunkIndex
        = List.range (uploadFileModel fid B).1.totalChunks ∧
    (∀ i, i < (uploadFileModel fid B).1.totalChunks →
      (chunkSlices B)[i]? = some ((B.drop (i * CHUNK_SIZE)).take CHUNK_SIZE)) ∧
    (∀ i, i + 1 < (uploadFileModel fid B).1.totalChunks →
      ((B.drop (i * CHUNK_SIZE)).take CHUNK_SIZE).length = CHUNK_SIZE) ∧
    ((B.drop (((uploadFileModel fid B).1.totalChunks - 1) * CHUNK_SIZE)).take
        CHUNK_SIZE).length
      = B.length - ((uploadFileModel fid B).1.totalChunks - 1) * CHUNK_SIZE ∧
    (B.length = 12 * 1024 * 1024 →
      (uploadFileModel fid B).1.totalChunks = 3 ∧
      (chunkSlices B).map List.length
        = [5 * 1024 * 1024, 5 * 1024 * 1024, 2 * 1024 * 1024]) := by
  refine ⟨?_, ?_, ?_, ?_, ?_, ?_, ?_⟩
  · rw [uploadFile_totalChunks, chunkSlices_length hB]
  · simp [uploadFileModel]
  · rw [uploadFile_chunkIndexes, uploadFile_totalChunks]
  · intro i hi
    rw [uploadFile_totalChunks] at hi
    exact chunkSlices_getElem i hi
  · intro i hi
    rw [uploadFile_totalChunks] at hi
    exact slice_length_full hB hi
  · rw [uploadFile_totalChunks]
    exact slice_length_last hB
  · intro hlen
    refine ⟨?_, chunkSlices_twelveMiB hlen⟩
    rw [uploadFile_totalChunks, chunkSlices_length hB, hlen]
    norm_num [CHUNK_SIZE]

/-- C6 witness: the split arithmetic at the one-byte buffer `[7]`. -/
theorem uploadFile_chunk_arithmetic_witness :
    ([7] : List Nat) ≠ [] ∧
    (uploadFileModel "f" [7]).1.totalChunks
      = (([7] : List Nat).length + CHUNK_SIZE - 1) / CHUNK_SIZE :=
  ⟨by decide, (uploadFile_chunk_arithmetic "f" [7] (by decide)).1⟩

/-- C7: cancellation promptness.  The abortable sleep rejects with an
`AbortError` at the moment the external signal aborts, not after the full
delay; an abort during the backoff sleep after attempt `n` makes
`fetchWithRetry` rethrow immediately with `n + 1` attempts performed and
no further fetch started, and the abort outcome is distinct from retry
exhaustion and every other outcome. -/
theorem cancellation_promptness :
    (∀ (ms t : Nat), t < ms → sleepModel ms (some t) = .rejectedAbort t) ∧
    (∀ (env : Nat → FetchStep) (retries code n : Nat),
      code ∈ retryStatuses → (∀ k, k ≤ n → env k = FetchStep.status code) →
      n < retries →
      fetchWithRetry env (fun k => decide (k = n)) retries
        = (.abortThrown, n + 1)) ∧
    (FetchOutcome.abortThrown ≠ .exhausted ∧
      FetchOutcome.abortThrown ≠ .netThrown ∧
      (∀ c, FetchOutcome.abortThrown ≠ .response c) ∧
      (∀ b, FetchOutcome.abortThrown ≠ .success b)) := by
  refine ⟨?_, ?_, by decide, by decide, fun c => by simp, fun b => by simp⟩
  · intro ms t h
    simp [sleepModel, h]
  · intro env retries code n hcode henv hn
    exact fetchGo_abort_during_sleep env retries code n hcode henv hn
      (retries + 1) 0 (by omega) (by omega)

/-- C7 witness: abort at tick 2 of a 5-tick sleep rejects at 2; an abort
during the backoff after attempt 1 stops the retry loop at 2 attempts. -/
theorem cancellation_promptness_witness :
    (2 : Nat) < 5 ∧ sleepModel 5 (some 2) = .rejectedAbort 2 ∧
    fetchWithRetry (fun _ => FetchStep.status 429) (fun k => decide (k = 1)) 4
      = (.abortThrown, 2) :=
  ⟨by decide, cancellation_promptness.1 5 2 (by decide),
   cancellation_promptness.2.1 (fun _ => .status 429) 4 429 1 (by decide)
      (fun k _ => rfl) (by decide)⟩

/-- C8: resume frame.  `resumeUpload` maps a `paused` record with the
given id to the same record with only `status := pending`, a cleared
`error` and a fresh unaborted controller — `currentChunk`, `chunks`,
`progress` and all other fields are unchanged, and records that are not
paused-with-this-id are untouched; the per-chunk loop then runs over
indices `currentChunk ≤ i < totalChunks`, so chunk 0 is not re-uploaded
once `currentChunk = 1`. -/
theorem resumeUpload_frame (l : List UploadFile) (id : String) :
    (∀ (i : Nat) (u : UploadFile), l[i]? = some u → u.id = id →
      u.status = .paused →
      (resumeUpload l id)[i]?
        = some { u with status := UploadStatus.pending, error := none, aborted := false }) ∧
    (∀ (i : Nat) (u : UploadFile), l[i]? = some u →
      ¬(u.id = id ∧ u.status = .paused) → (resumeUpload l id)[i]? = some u) ∧
    (∀ u : UploadFile,
      ({ u with status := UploadStatus.pending, error := none, aborted := false } : UploadFile).currentChunk = u.currentChunk ∧
      ({ u with status := UploadStatus.pending, error := none, aborted := false } : UploadFile).chunks = u.chunks ∧
      ({ u with status := UploadStatus.pending, error := none, aborted := false } : UploadFile).progress = u.progress ∧
      ({ u with status := UploadStatus.pending, error := none, aborted := false } : UploadFile).size = u.size ∧
      ({ u with status := UploadStatus.pending, error := none, aborted := false } : UploadFile).retryCount = u.retryCount ∧
      ({ u with status := UploadStatus.pending, error := none, aborted := false } : UploadFile).totalChunks = u.totalChunks ∧
      ({ u with status := UploadStatus.pending, error := none, aborted := false } : UploadFile).id = u.id) ∧
    (∀ (c t j : Nat), j ∈ loopFrom c t → c ≤ j) ∧
    (∀ t : Nat, 0 ∉ loopFrom 1 t) := by
  refine ⟨?_, ?_, ?_, ?_, ?_⟩
  · intro i u hu hid hst
    rw [resumeUpload, List.getElem?_map, hu]
    simp [hid, hst]
  · intro i u hu hcond
    rw [resumeUpload, List.getElem?_map, hu]
    show some (if u.id = id ∧ u.status = UploadStatus.paused then { u with status := UploadStatus.pending, error := none, aborted := false } else u) = some u
    rw [if_neg hcond]
  · intro u
    exact ⟨rfl, rfl, rfl, rfl, rfl, rfl, rfl⟩
  · intro c t j h
    exact loopFrom_lower_bound h
  · intro t h
    exact absurd (loopFrom_lower_bound h) (by omega)

/-- C8 witness: resuming a concrete paused record flips exactly status,
error and controller, and the loop starting at `currentChunk = 1` never
revisits chunk 0. -/
theorem resumeUpload_frame_witness :
    ([({ id := "a", size := 9, status := UploadStatus.paused, error := some "e", progress := 50, chunks := [], totalChunks := 2, currentChunk := 1, retryCount := 1, aborted := true } : UploadFile)])[0]?
      = some { id := "a", size := 9, status := UploadStatus.paused, error := some "e", progress := 50, chunks := [], totalChunks := 2, currentChunk := 1, retryCount := 1, aborted := true } ∧
    (resumeUpload [{ id := "a", size := 9, status := UploadStatus.paused, error := some "e", progress := 50, chunks := [], totalChunks := 2, currentChunk := 1, retryCount := 1, aborted := true }] "a")[0]?
      = some { id := "a", size := 9, status := UploadStatus.pending, error := none, progress := 50, chunks := [], totalChunks := 2, currentChunk := 1, retryCount := 1, aborted := false } ∧
    0 ∉ loopFrom 1 2 :=
  ⟨rfl,
   (resumeUpload_frame [{ id := "a", size := 9, status := UploadStatus.paused, error := some "e", progress := 50, chunks := [], totalChunks := 2, currentChunk := 1, retryCount := 1, aborted := true }] "a").1 0 _ rfl rfl rfl,
   (resumeUpload_frame [] "x").2.2.2.2 2⟩

/-- C9 counterexample: a zero-length buffer is not rejected by the
storage layer — `uploadFile` sends it down the single-chunk path,
transmits one encrypted (padded) chunk and returns a one-element
descriptor set; and the queue's `addUploads` does not fail on an empty
file either, it silently skips it. -/
theorem zero_size_upload_cex :
    (uploadFileModel "f" []).1.totalChunks = 1 ∧
    (uploadFileModel "f" []).2.length = 1 ∧
    (uploadFileModel "f" []).2 ≠ [] ∧
    addUploads [⟨"a", 0⟩] = [] :=
  ⟨by decide, by decide, by decide, by decide⟩

/-- C9 (amended): zero-length files are filtered out client-side —
`addUploads` skips them with a warning and creates no record (so nothing
is encrypted or transmitted for them) while succeeding for the remaining
files; the storage-layer `uploadFile` itself does not reject an empty
buffer and would upload a single padded chunk. -/
theorem zero_size_skip (files : List FileIn) (fid : String) :
    addUploads files = (files.filter (fun f => f.size != 0)).map mkUpload ∧
    (∀ f ∈ files, f.size = 0 → mkUpload f ∉ addUploads files) ∧
    (uploadFileModel fid []).1.totalChunks = 1 := by
  refine ⟨addUploads_eq files, ?_, ?_⟩
  · intro f _ h0 hmem
    rw [addUploads_eq] at hmem
    rcases List.mem_map.mp hmem with ⟨g, hg, he⟩
    have hsz : g.size ≠ 0 := by simpa using (List.mem_filter.mp hg).2
    apply hsz
    have : (mkUpload g).size = (mkUpload f).size := by rw [he]
    simpa [mkUpload, h0] using this
  · rw [uploadFile_totalChunks,
      chunkSlices_single (by norm_num [CHUNK_SIZE])]
    rfl

/-- C10: deterministic encryption.  `encryptChunk` takes no randomness —
`createCipher` derives key and IV from the password alone — so the
ciphertext transmitted for a chunk and the `encryptedHash` recorded in its
descriptor are functions of the plaintext slice and the (fileId,
chunkIndex)-derived key only: two uploads whose `i`-th slices agree
transmit identical bytes and record identical hashes, and every
descriptor's hash is exactly the hash of its own transmitted ciphertext. -/
theorem encryptChunk_deterministic (fid : String) (B1 B2 : List Nat) (i : Nat)
    (h : (chunkSlices B1)[i]? = (chunkSlices B2)[i]?) :
    ((uploadFileModel fid B1).2).lookup i
        = ((uploadFileModel fid B2).2).lookup i ∧
    ((uploadFileModel fid B1).1.chunks[i]?).map TelegramChunk.encryptedHash
        = ((uploadFileModel fid B2).1.chunks[i]?).map TelegramChunk.encryptedHash ∧
    (∀ chunk : List Nat, (uploadChunkModel fid i chunk).1.encryptedHash
        = hashHex ((uploadChunkModel fid i chunk).2.2)) := by
  refine ⟨?_, ?_, fun chunk => rfl⟩
  · rw [uploadFile_store_lookup, uploadFile_store_lookup, h]
  · rw [uploadFile_chunks_getElem, uploadFile_chunks_getElem, h]

/-- C10 witness: two different buffers agreeing (vacuously, out of range)
at index 5 store and hash identically there. -/
theorem encryptChunk_deterministic_witness :
    (chunkSlices [1])[5]? = (chunkSlices [2])[5]? ∧
    ((uploadFileModel "f" [1]).2).lookup 5 = ((uploadFileModel "f" [2]).2).lookup 5 :=
  ⟨by decide, (encryptChunk_deterministic "f" [1] [2] 5 (by decide)).1⟩

end CloudVault
